import Mathlib

/-!
Verification development for the tree model / mutation engine of
`react-hyper-tree` (source: `src/helpers/hooks.ts`).

The single source file under verification is `hooks.ts`, which defines the
mutation-engine operations (`setLoading`, `setSelected`, `setChildren`,
`setSiblings`, `setRawChildren`, `setOpen`, `setOpenByPath`,
`setSelectedByPath`, `handleDrop`) over a `TreeView` / `TreeNode` model that
lives in `node.ts`.  `node.ts` is not part of the sources; where one of its
methods decides a claim it is modelled from the spec, and the corresponding
definition's doc comment says so explicitly.

Conventions of the embedding:
* Node ids (`string | number` in TS) are embedded as `String`.
* TS `async` functions are embedded as explicit phase functions: the
  synchronous prefix up to the first `await` is one function, the
  continuation after the awaited fetch resolves is another.  A full run with
  the fetch resolved is their composition.  JavaScript is single threaded, so
  each synchronous phase runs atomically.
* Side effects that leave the model (`console.error`, `forceUpdate`,
  `enhanceNodes`, invoking the fetch capability) are recorded as an ordered
  event trace.
-/

namespace HyperTree

/-- Insert mode of `setChildren` / `setNodeChildren`
(`InsertChildType` in `node.ts`): `first`, `last` or `replace`. -/
inductive InsertType
  | first
  | last
  | replace
deriving DecidableEq, Repr

/-- Sibling insertion position (`InsertSiblingType`): `before` or `after`. -/
inductive SibPos
  | before
  | after
deriving DecidableEq, Repr

/-- Outcome of invoking the async children-fetch capability
(`data.getChildren` in `hooks.ts`): a list of raw records (identified by
their ids) on success, or a failure. -/
inductive FetchOutcome
  | ok (recs : List String)
  | fail
deriving DecidableEq, Repr

/-- Observable events emitted by a run of `setOpen` and its helpers:
`setLoading` flag writes, invocation of the fetch capability, `setOpened`
flag writes, the `setRawChildren` call with its insert mode and reset flag,
the `console.error` report, and each `treeView.enhanceNodes(rebuild)` call. -/
inductive Ev
  | evSetLoading (b : Bool)
  | fetchInvoke
  | evSetOpened (b : Bool)
  | setRawChildrenCall (mode : InsertType) (reset : Bool)
  | errorLog
  | enhanceCall (rebuild : Bool)
deriving DecidableEq, Repr

/-- The view state of one node, as far as `setOpen` touches it: the `opened`
and `loading` flags, the current children (by record id), and the optional
async children-fetch capability together with the outcome its invocation
would produce (`none` models raw data without a `getChildren` function). -/
structure ONode where
  opened : Bool
  loading : Bool
  children : List String
  cap : Option FetchOutcome
deriving DecidableEq, Repr

/-- Modelled from the spec: `TreeNode.setChildren(children, insertMode,
reset)` of the missing `node.ts` — `reset=true` discards existing children
before inserting; insert mode `first` prepends, `last` appends, `replace`
replaces. -/
def insertChildren (existing : List String) (incoming : List String)
    (mode : InsertType) (reset : Bool) : List String :=
  let base := if reset then [] else existing
  match mode with
  | .first => incoming ++ base
  | .last => base ++ incoming
  | .replace => incoming

/-- Synchronous prefix of `setOpen` (hooks.ts lines 238-251), up to the
`await currentNode.data.getChildren(...)` suspension point.  Returns the
node state at the suspension (or at completion for the non-fetch branch),
the events emitted so far, and whether the run suspended on a fetch.

The guard of the fetch branch is exactly the source's
`currentNode.data.getChildren && isFunction(...) && !currentNode.isOpened()`:
it tests capability presence and `opened`, and does not consult `loading`. -/
def setOpenPhase1 (n : ONode) : ONode × List Ev × Bool :=
  if n.cap.isSome && !n.opened then
    ({ n with loading := true }, [.evSetLoading true, .fetchInvoke], true)
  else
    ({ n with opened := !n.opened },
      [.evSetOpened (!n.opened), .enhanceCall false, .enhanceCall false], false)

/-- Continuation of `setOpen` after the awaited fetch resolves
(hooks.ts lines 242-254): on success `setLoading(false)`, `setOpened(true)`,
`setRawChildren(node, asyncData, 'last', true)` (which re-enhances), then the
trailing `forceUpdate(() => treeView.enhanceNodes())`; on failure only
`console.error` and the trailing re-enhance — the `catch` block does not
reset `loading`. -/
def setOpenResume (n : ONode) (outcome : FetchOutcome) : ONode × List Ev :=
  match outcome with
  | .ok recs =>
    ({ n with
        loading := false
        opened := true
        children := insertChildren n.children recs .last true },
      [.evSetLoading false, .evSetOpened true, .setRawChildrenCall .last true,
        .enhanceCall false, .enhanceCall false])
  | .fail => (n, [.errorLog, .enhanceCall false])

/-- A complete run of `setOpen` on one node, with the fetch (when one is
started) resolved to the node's capability outcome.  The `try/catch` swallows
the failure, so the run is total: nothing is raised to the caller. -/
def setOpenRun (n : ONode) : ONode × List Ev :=
  let p := setOpenPhase1 n
  if p.2.2 then
    match n.cap with
    | some outcome =>
      let r := setOpenResume p.1 outcome
      (r.1, p.2.1 ++ r.2)
    | none => (p.1, p.2.1)
  else (p.1, p.2.1)

/-- Number of fetch invocations recorded in a trace. -/
def fetchCount (tr : List Ev) : Nat :=
  (tr.filter (fun e => e = Ev.fetchInvoke)).length

/-- Two back-to-back `setOpen` calls on the same node while the first call's
fetch is still outstanding: the first call runs its synchronous prefix and
suspends on the fetch; the second call then runs its synchronous prefix on
the resulting state (JavaScript runs it before the first fetch resolves).
Returns the total number of fetch invocations started by the two prefixes. -/
def fetchesAfterTwoCalls (n : ONode) : Nat :=
  let p1 := setOpenPhase1 n
  let p2 := setOpenPhase1 p1.1
  fetchCount p1.2.1 + fetchCount p2.2.1

/-! ### Node store, selection and loading (`setSelected`, `setLoading`) -/

/-- One `TreeNode` of the graph, with the fields the mutation engine touches:
identity, structural links (`options.parent`, `options.root`, `options.leaf`,
children), the transient drop indicator, and the view flags. -/
structure TNode where
  id : String
  parentId : Option String
  root : Bool
  leaf : Bool
  childIds : List String
  dragContainer : Option String
  opened : Bool
  selected : Bool
  loading : Bool
deriving DecidableEq, Repr

/-- The `node: TreeNode | string | number` parameter of the mutation-engine
operations: either a direct `TreeNode` reference (embedded by the id of the
live node it points at) or an id to be resolved via `getNodeById`. -/
inductive NodeRef
  | byNode (id : String)
  | byId (id : String)
deriving DecidableEq, Repr

/-- Modelled from the spec: `TreeView.getNodeById` of the missing `node.ts` —
O(1) lookup of the live node with the given id; returns a not-found sentinel
(here `none`) instead of throwing.  The store lists every live node of the
graph; ids are unique by the spec's configuration requirement, so first
match is the node. -/
def getNodeById (ns : List TNode) (i : String) : Option TNode :=
  ns.find? (fun n => n.id == i)

/-- Modelled from the spec: `TreeView.unselectAll` of the missing `node.ts` —
walks the full graph (not just visible nodes) clearing `selected`. -/
def unselectAll (ns : List TNode) : List TNode :=
  ns.map (fun n => { n with selected := false })

/-- Mutate the first node with the given id (the one live `TreeNode` object
carrying that id) in place, leaving the rest of the store unchanged. -/
def updateFirst (i : String) (f : TNode → TNode) : List TNode → List TNode
  | [] => []
  | n :: rest => if n.id = i then f n :: rest else n :: updateFirst i f rest

/-- `setSelected` from hooks.ts lines 92-106: when multi-select is disabled
and `selected` is truthy, first `unselectAll()`; then set the flag on the
node — directly when a `TreeNode` was passed, otherwise only if
`getNodeById` resolves the id. -/
def setSelectedOp (multipleSelect : Bool) (ns : List TNode) (ref : NodeRef)
    (sel : Bool) : List TNode :=
  let ns1 := if !multipleSelect && sel then unselectAll ns else ns
  match ref with
  | .byNode i => updateFirst i (fun n => { n with selected := sel }) ns1
  | .byId i =>
    match getNodeById ns1 i with
    | some _ => updateFirst i (fun n => { n with selected := sel }) ns1
    | none => ns1

/-- `setLoading` from hooks.ts lines 79-90: set the flag on the node —
directly when a `TreeNode` was passed, otherwise only if `getNodeById`
resolves the id. -/
def setLoadingOp (ns : List TNode) (ref : NodeRef) (loading : Bool) :
    List TNode :=
  match ref with
  | .byNode i => updateFirst i (fun n => { n with loading := loading }) ns
  | .byId i =>
    match getNodeById ns i with
    | some _ => updateFirst i (fun n => { n with loading := loading }) ns
    | none => ns

/-- Number of nodes in the graph whose `selected` flag is set. -/
def countSelected (ns : List TNode) : Nat :=
  (ns.filter (fun n => n.selected)).length

/-! ### Path-based opening (`setOpenByPath`) -/

/-- Store of open/load state per node id, for runs of `setOpen` addressed by
id; an association list keyed by unique node ids. -/
abbrev OStore := List (String × ONode)

/-- Lookup in the id-indexed store (first match; ids are unique). -/
def lookupO (st : OStore) (i : String) : Option ONode :=
  (st.find? (fun p => p.1 == i)).map Prod.snd

/-- Replace the entry of the given id (first match) in the store. -/
def updateO : OStore → String → ONode → OStore
  | [], _, _ => []
  | p :: rest, i, n => if p.1 = i then (i, n) :: rest else p :: updateO rest i n

/-- One full `setOpen(id)` call, id-addressed as `setOpenByPath` issues them:
`getNodeById` resolution failure returns with no effect and no events
(hooks.ts lines 234-236); otherwise the node runs `setOpenRun` to
completion. -/
def setOpenById (st : OStore) (seg : String) : OStore × List Ev :=
  match lookupO st seg with
  | none => (st, [])
  | some n =>
    let r := setOpenRun n
    (updateO st seg r.1, r.2)

/-- `setOpenByPath` from hooks.ts lines 257-262: split the path on `/` and
chain one `setOpen` per segment through an awaited promise chain
(`reduce` over `async` callbacks, each awaiting its predecessor before
calling `setOpen`), embedded as a left fold that threads the store and
accumulates the event trace. -/
def setOpenByPathModel (st : OStore) (path : String) : OStore × List Ev :=
  (path.splitOn "/").foldl
    (fun acc seg =>
      let r := setOpenById acc.1 seg
      (r.1, acc.2 ++ r.2))
    (st, [])

/-- Fully sequential per-segment execution: run the segments one at a time,
each `setOpen` completed on the state left by the previous one, recording
each segment's complete event block separately. -/
def runSegments (st : OStore) : List String → OStore × List (String × List Ev)
  | [] => (st, [])
  | seg :: rest =>
    let r := setOpenById st seg
    let rr := runSegments r.1 rest
    (rr.1, (seg, r.2) :: rr.2)

/-! ### Structural mutation: `setSiblings` and drag-and-drop (`handleDrop`) -/

/-- The tree-instance state the structural operations touch: the store of all
live nodes, the flattened view (`treeView.enhancedData`, by node id), the
identity index (`idIndex`, by node id), the drag bookkeeping React state
(`dropNodeId`, `dropType`, `isDragging`), and a log of the
`enhanceNodes(rebuild)` calls issued. -/
structure MState where
  nodes : List TNode
  enhancedData : List String
  idIndex : List String
  dropNodeId : Option String
  dropType : Option String
  isDragging : Bool
  enhanceLog : List Bool
deriving DecidableEq, Repr

/-- Breadth-first collection of node ids reachable from a frontier through
`childIds`, with fuel bounding the depth. -/
def collectLevels (store : List TNode) : Nat → List String → List String
  | 0, _ => []
  | fuel + 1, frontier =>
    frontier ++ collectLevels store fuel
      ((frontier.map (fun i =>
        match getNodeById store i with
        | some n => n.childIds
        | none => [])).flatten)

/-- Modelled from the spec: the `idIndex` rebuild of the missing `node.ts` —
"rebuilt from the full (not just visible) graph", i.e. every node reachable
from the roots, closed or filtered branches included.  The fuel exceeds the
store size, so every reachable level is covered. -/
def rebuildIndexIds (store : List TNode) : List String :=
  collectLevels store (store.length + 1) ((store.filter (fun n => n.root)).map (fun n => n.id))

/-- Modelled from the spec: `TreeView.enhanceNodes(rebuild)` of the missing
`node.ts` — re-derives the view and, when `rebuild` is true, rebuilds
`idIndex` from the full graph.  The spec fixes the view's root-level order to
the root sequence, including the root-level splices the engine performs just
before re-deriving, so `enhancedData` is carried over; the call itself is
logged. -/
def enhanceNodesM (st : MState) (rebuild : Bool) : MState :=
  { st with
    enhanceLog := st.enhanceLog ++ [rebuild]
    idIndex := if rebuild then rebuildIndexIds st.nodes else st.idIndex }

/-- Resolve a `TreeNode | id` argument against the instance: a direct
`TreeNode` reference denotes the live node with that id, an id goes through
`getNodeById`; both give `none` when no live node carries the id. -/
def resolveRef (st : MState) (ref : NodeRef) : Option TNode :=
  match ref with
  | .byNode i => getNodeById st.nodes i
  | .byId i => getNodeById st.nodes i

/-- `Array.prototype.splice(i, 0, ...xs)`: insert `xs` at position `i`. -/
def spliceAt (l : List α) (i : Nat) (xs : List α) : List α :=
  l.take i ++ xs ++ l.drop i

/-- Replace any stored nodes carrying the ids of `incoming` by the incoming
node objects (one live object per id), appending the genuinely new ones. -/
def upsertNodes (ns : List TNode) (incoming : List TNode) : List TNode :=
  ns.filter (fun n => !(incoming.any (fun s => s.id == n.id))) ++ incoming

/-- Modelled from the spec: `TreeNode.setChildren` of the missing `node.ts`,
applied to the stored parent node — children are combined per
`insertChildren`, and `isLeaf` is updated to false whenever the children
become non-empty. -/
def setNodeChildrenM (st : MState) (pid : String) (cs : List String)
    (mode : InsertType) (reset : Bool) : MState :=
  { st with
    nodes := updateFirst pid (fun p =>
      let newCs := insertChildren p.childIds cs mode reset
      { p with
        childIds := newCs
        leaf := if newCs.isEmpty then p.leaf else false }) st.nodes }

/-- `setSiblings` from hooks.ts lines 141-179: resolve the target; if it has
a parent, splice the siblings before/after it among the parent's children and
reset the parent's children to the spliced list; if it is a root, splice the
siblings (with `parent` cleared, `root := true`, `leaf := false`) into
`treeView.enhancedData` before/after the target's position there; each branch
re-runs `enhanceNodes(true)`. -/
def setSiblingsOpM (st : MState) (ref : NodeRef) (siblings : List TNode)
    (pos : SibPos) : MState :=
  match resolveRef st ref with
  | none => st
  | some t =>
    let st1 :=
      match t.parentId with
      | some pid =>
        match getNodeById st.nodes pid with
        | some p =>
          match p.childIds.findIdx? (fun c => c == t.id) with
          | some idx =>
            let start := if pos = .before then idx else idx + 1
            let newCs := spliceAt p.childIds start (siblings.map (fun s => s.id))
            let stA := { st with nodes := upsertNodes st.nodes siblings }
            let stB := setNodeChildrenM stA pid newCs .first true
            enhanceNodesM stB true
          | none => st
        | none => st
      | none => st
    if t.root then
      match st1.enhancedData.findIdx? (fun c => c == t.id) with
      | some idx =>
        let start := if pos = .before then idx else idx + 1
        let mapped := siblings.map (fun s =>
          { s with
            parentId := none
            root := true
            leaf := false })
        let st2 := { st1 with
          nodes := upsertNodes st1.nodes mapped
          enhancedData := spliceAt st1.enhancedData start (mapped.map (fun s => s.id)) }
        enhanceNodesM st2 true
      | none => st1
    else st1

/-- `setDragContainer` from hooks.ts lines 108-119, id-addressed: clear or
set the drop indicator of the resolved node; lookup miss does nothing. -/
def setDragContainerByIdM (st : MState) (i : String) (v : Option String) :
    MState :=
  match getNodeById st.nodes i with
  | some _ =>
    { st with
      nodes := updateFirst i (fun n => { n with dragContainer := v }) st.nodes }
  | none => st

/-- `handleDrop` from hooks.ts lines 297-325, given the source node's id:
stop dragging; clear the drop indicator of the recorded drop target; when a
drop target is recorded and differs from the source, detach the source from
its parent (or from the root-level view) and re-attach according to
`dropType` — as last child of the target for `children`, or as a sibling via
`setSiblings` for `before`/`after` — then clear the recorded target.
A `children` drop whose recorded target id no longer resolves dereferences
`null` in the source (`targetNode.setNodeChildren`), embedded as `.error`. -/
def handleDropOpM (st0 : MState) (sid : String) : Except String MState :=
  let st1 := { st0 with isDragging := false }
  let st2 :=
    match st1.dropNodeId with
    | some d => setDragContainerByIdM st1 d none
    | none => st1
  match st2.dropNodeId with
  | none => .ok st2
  | some d =>
    if d = sid then .ok st2
    else
      let target? := getNodeById st2.nodes d
      let st3 :=
        match getNodeById st2.nodes sid with
        | some src =>
          match src.parentId with
          | some pid =>
            { st2 with
              nodes := updateFirst pid (fun p =>
                { p with childIds := p.childIds.filter (fun c => !(c == sid)) }) st2.nodes }
          | none =>
            { st2 with
              enhancedData := st2.enhancedData.filter (fun c => !(c == sid)) }
        | none => st2
      if st3.dropType = some "children" then
        match target? with
        | none => .error "TypeError: setNodeChildren of null"
        | some _ =>
          let st4 := { st3 with
            nodes := updateFirst sid (fun s =>
              { s with
                parentId := some d
                root := false
                leaf := true }) st3.nodes }
          let st5 := setNodeChildrenM st4 d [sid] .last false
          let st6 := enhanceNodesM st5 true
          .ok { st6 with dropNodeId := none }
      else if st3.dropType = some "after" || st3.dropType = some "before" then
        let srcList := (getNodeById st3.nodes sid).toList
        let pos : SibPos := if st3.dropType = some "before" then .before else .after
        let st4 := setSiblingsOpM st3 (.byNode d) srcList pos
        .ok { st4 with dropNodeId := none }
      else
        .ok { st3 with dropNodeId := none }

/-- The tree-structure part of the instance state: per node its identity,
parent link, root/leaf flags and children, plus the flattened view — the
state C8's no-op guarantee is about (drag indicators and the dragging flag
are transient non-structural state). -/
def structuralOf (st : MState) :
    List (String × Option String × Bool × Bool × List String) × List String :=
  (st.nodes.map (fun n => (n.id, n.parentId, n.root, n.leaf, n.childIds)),
    st.enhancedData)

/-! ### Raw-dataset normalization (`useTreeState` data effect) -/

/-- The `data` prop of `useTreeState`: an arbitrary raw record or an array of
raw records. -/
inductive RawInput (α : Type)
  | single (r : α)
  | arr (rs : List α)

/-- hooks.ts line 56: `Array.isArray(data) ? data : [data]` — a non-array
input is wrapped into a one-element array. -/
def formatData : RawInput α → List α
  | .single r => [r]
  | .arr rs => rs

/-- The data-synchronization effect of `useTreeState` (hooks.ts lines 55-64):
normalize the input, then replace `localData` (the state the tree is rebuilt
from) only when the content hash of the normalized input differs from the
content hash of the current `localData`. -/
def dataSyncStep (hashFn : List α → Nat) (input : RawInput α)
    (localData : List α) : List α :=
  let formatted := formatData input
  if hashFn formatted != hashFn localData then formatted else localData

/-! ## Theorems -/

/-! ### Helper lemmas -/

theorem countSelected_cons (n : TNode) (rest : List TNode) :
    countSelected (n :: rest)
      = (if n.selected then 1 else 0) + countSelected rest := by
  by_cases h : n.selected <;> simp [countSelected, List.filter_cons, h] <;> omega

theorem countSelected_unselectAll (ns : List TNode) :
    countSelected (unselectAll ns) = 0 := by
  induction ns with
  | nil => rfl
  | cons n rest ih => simpa [unselectAll, countSelected, List.filter_cons] using ih

theorem countSelected_updateFirst_le (i : String) (sel : Bool) (ns : List TNode) :
    countSelected (updateFirst i (fun n => { n with selected := sel }) ns)
      ≤ countSelected ns + (if sel then 1 else 0) := by
  induction ns with
  | nil => simp [updateFirst]
  | cons n rest ih =>
    by_cases h : n.id = i
    · simp only [updateFirst, if_pos h, countSelected_cons]
      by_cases hs : n.selected <;> cases sel <;> simp [hs] <;> omega
    · simp only [updateFirst, if_neg h, countSelected_cons]
      omega

theorem countSelected_updateFirst_true_le (i : String) (ns : List TNode) :
    countSelected (updateFirst i (fun n => { n with selected := true }) ns)
      ≤ countSelected ns + 1 := by
  simpa using countSelected_updateFirst_le i true ns

theorem countSelected_updateFirst_false_le (i : String) (ns : List TNode) :
    countSelected (updateFirst i (fun n => { n with selected := false }) ns)
      ≤ countSelected ns := by
  simpa using countSelected_updateFirst_le i false ns

theorem setSelectedOp_single_select_step (ns : List TNode) (ref : NodeRef)
    (sel : Bool) (h : countSelected ns ≤ 1) :
    countSelected (setSelectedOp false ns ref sel) ≤ 1 := by
  cases sel with
  | true =>
    have h0 : countSelected (unselectAll ns) = 0 := countSelected_unselectAll ns
    cases ref with
    | byNode i =>
      have hle := countSelected_updateFirst_true_le i (unselectAll ns)
      simp only [setSelectedOp, Bool.not_false, Bool.true_and, if_true]
      omega
    | byId i =>
      have hle := countSelected_updateFirst_true_le i (unselectAll ns)
      rcases hg : getNodeById (unselectAll ns) i with _ | fn <;>
        simp only [setSelectedOp, Bool.not_false, Bool.true_and, if_true, hg] <;>
        omega
  | false =>
    cases ref with
    | byNode i =>
      have hle := countSelected_updateFirst_false_le i ns
      simp only [setSelectedOp, Bool.and_false, Bool.false_eq_true, if_false]
      omega
    | byId i =>
      have hle := countSelected_updateFirst_false_le i ns
      rcases hg : getNodeById ns i with _ | fn <;>
        simp only [setSelectedOp, Bool.and_false, Bool.false_eq_true, if_false,
          hg] <;>
        omega

theorem getNodeById_unselectAll (ns : List TNode) (i : String) :
    getNodeById (unselectAll ns) i
      = (getNodeById ns i).map (fun n => { n with selected := false }) := by
  induction ns with
  | nil => rfl
  | cons n rest ih =>
    by_cases h : n.id = i <;>
      simp [getNodeById, unselectAll, List.find?_cons, h] at ih ⊢ <;>
      simpa [getNodeById, unselectAll] using ih

/-- C3: when multi-select is disabled, `setSelected` preserves the
single-select invariant — starting from a graph with at most one selected
node, after any sequence of `setSelected` calls (any mix of direct `TreeNode`
references and ids, resolving or not, selecting or deselecting) at most one
node across the entire graph has `selected = true`, because a truthy
`selected` first clears every flag via `unselectAll`. -/
theorem setSelected_single_select_invariant (calls : List (NodeRef × Bool))
    (ns : List TNode) (h : countSelected ns ≤ 1) :
    countSelected
      (calls.foldl (fun s c => setSelectedOp false s c.1 c.2) ns) ≤ 1 := by
  induction calls generalizing ns with
  | nil => simpa using h
  | cons c rest ih =>
    simpa [List.foldl_cons] using
      ih _ (setSelectedOp_single_select_step ns c.1 c.2 h)

/-- Witness for `setSelected_single_select_invariant`: two selecting calls
and one call on an unresolvable id over a two-node graph. -/
theorem setSelected_single_select_invariant_witness :
    countSelected [TNode.mk "a" none true false [] none false false false,
      TNode.mk "b" none true false [] none false false false] ≤ 1 ∧
    countSelected
      (([(NodeRef.byId "a", true), (NodeRef.byNode "b", true),
          (NodeRef.byId "zzz", true)]).foldl
        (fun s c => setSelectedOp false s c.1 c.2)
        [TNode.mk "a" none true false [] none false false false,
          TNode.mk "b" none true false [] none false false false]) ≤ 1 :=
  ⟨by decide, setSelected_single_select_invariant _ _ (by decide)⟩

/-- C4, counterexample: `setSelected` with an id `getNodeById` cannot
resolve is NOT a pure no-op — with multi-select disabled and
`selected = true`, `unselectAll()` runs before the failed lookup, so the
previously selected node "a" loses its flag. -/
theorem setSelected_unresolved_noop_cex :
    getNodeById [TNode.mk "a" none true false [] none false true false] "b"
        = none ∧
    ¬ (setSelectedOp false
        [TNode.mk "a" none true false [] none false true false]
        (.byId "b") true
      = [TNode.mk "a" none true false [] none false true false]) := by
  decide

/-- C4, amended: a mutation-engine call with an id that `getNodeById` cannot
resolve raises nothing and — for `setLoading` always, and for `setSelected`
whenever multi-select is enabled or `selected` is falsy — leaves the state
exactly as it was; but `setSelected` with multi-select disabled and
`selected = true` still clears the selected flag of every node via
`unselectAll` before the lookup fails. -/
theorem unresolved_id_mutation_effect (ns : List TNode) (i : String)
    (b sel ms : Bool) (h : getNodeById ns i = none) :
    setLoadingOp ns (.byId i) b = ns ∧
    setSelectedOp true ns (.byId i) sel = ns ∧
    setSelectedOp ms ns (.byId i) false = ns ∧
    setSelectedOp false ns (.byId i) true = unselectAll ns := by
  refine ⟨?_, ?_, ?_, ?_⟩
  · simp [setLoadingOp, h]
  · simp [setSelectedOp, h]
  · simp [setSelectedOp, h]
  · simp [setSelectedOp, getNodeById_unselectAll, h]

/-- Witness for `unresolved_id_mutation_effect` at a one-node graph whose
node is selected and an id absent from it. -/
theorem unresolved_id_mutation_effect_witness :
    getNodeById [TNode.mk "a" none true false [] none false true false] "b"
        = none ∧
    (setLoadingOp [TNode.mk "a" none true false [] none false true false]
        (.byId "b") true
      = [TNode.mk "a" none true false [] none false true false] ∧
    setSelectedOp true [TNode.mk "a" none true false [] none false true false]
        (.byId "b") true
      = [TNode.mk "a" none true false [] none false true false] ∧
    setSelectedOp false [TNode.mk "a" none true false [] none false true false]
        (.byId "b") false
      = [TNode.mk "a" none true false [] none false true false] ∧
    setSelectedOp false [TNode.mk "a" none true false [] none false true false]
        (.byId "b") true
      = unselectAll [TNode.mk "a" none true false [] none false true false]) :=
  ⟨by decide,
    unresolved_id_mutation_effect
      [TNode.mk "a" none true false [] none false true false] "b" true true false
      (by decide)⟩

/-- C1, counterexample: on a closed node with an async children-fetch
capability, two back-to-back `setOpen` calls issued while the first call's
fetch is still outstanding do NOT result in exactly one fetch invocation —
the guard checks only `!isOpened()` and the capability, never `loading`, so
the second call starts a second fetch. -/
theorem setOpen_second_call_noop_cex :
    ¬ (fetchesAfterTwoCalls (ONode.mk false false [] (some (.ok ["r1"]))) = 1) := by
  decide

/-- C1, amended: for every node with an async children-fetch capability that
is not opened, two back-to-back `setOpen` calls while the first fetch is
outstanding invoke the fetch capability twice — the second call re-enters the
fetch branch because only `opened` (not `loading`) is consulted. -/
theorem setOpen_reentrant_double_fetch (n : ONode)
    (h1 : n.cap.isSome = true) (h2 : n.opened = false) :
    fetchesAfterTwoCalls n = 2 := by
  obtain ⟨op, lo, ch, cp⟩ := n
  subst h2
  cases cp with
  | none => simp at h1
  | some o =>
    simp [fetchesAfterTwoCalls, setOpenPhase1, fetchCount]

/-- Witness for `setOpen_reentrant_double_fetch` at a concrete closed node
with a successful fetch capability. -/
theorem setOpen_reentrant_double_fetch_witness :
    (ONode.mk false false [] (some (.ok []))).cap.isSome = true ∧
    (ONode.mk false false [] (some (.ok []))).opened = false ∧
    fetchesAfterTwoCalls (ONode.mk false false [] (some (.ok []))) = 2 :=
  ⟨by decide, by decide,
    setOpen_reentrant_double_fetch (ONode.mk false false [] (some (.ok [])))
      (by decide) (by decide)⟩

/-- C2, counterexample: on a closed node whose fetch capability fails,
`setOpen` does NOT leave the node with `loading = false` — the `catch` block
only logs, so `loading` stays `true`; the rest of the claimed outcome
(closed, children unchanged, error surfaced) does hold, so the stated
conjunction fails. -/
theorem setOpen_failure_loading_cex :
    ¬ ((setOpenRun (ONode.mk false false ["old"] (some .fail))).1.loading = false ∧
      (setOpenRun (ONode.mk false false ["old"] (some .fail))).1.opened = false ∧
      (setOpenRun (ONode.mk false false ["old"] (some .fail))).1.children = ["old"] ∧
      Ev.errorLog ∈ (setOpenRun (ONode.mk false false ["old"] (some .fail))).2) := by
  decide

/-- C2, amended: for every closed node whose async children-fetch capability
fails, `setOpen` surfaces the error to the external error channel
(`console.error`), leaves the node closed with its children unchanged,
invokes the fetch exactly once (no retry) and returns normally — but the
node is left with `loading = true`, since the `catch` block never resets the
flag. -/
theorem setOpen_fetch_failure_state (n : ONode)
    (h1 : n.cap = some .fail) (h2 : n.opened = false) :
    Ev.errorLog ∈ (setOpenRun n).2 ∧
    (setOpenRun n).1.opened = false ∧
    (setOpenRun n).1.loading = true ∧
    (setOpenRun n).1.children = n.children ∧
    fetchCount (setOpenRun n).2 = 1 := by
  obtain ⟨op, lo, ch, cp⟩ := n
  subst h2
  subst h1
  simp [setOpenRun, setOpenPhase1, setOpenResume, fetchCount]

/-- Witness for `setOpen_fetch_failure_state` at a concrete closed node with
a failing fetch capability. -/
theorem setOpen_fetch_failure_state_witness :
    Ev.errorLog ∈ (setOpenRun (ONode.mk false false ["c"] (some .fail))).2 ∧
    (setOpenRun (ONode.mk false false ["c"] (some .fail))).1.opened = false ∧
    (setOpenRun (ONode.mk false false ["c"] (some .fail))).1.loading = true ∧
    (setOpenRun (ONode.mk false false ["c"] (some .fail))).1.children =
      (ONode.mk false false ["c"] (some .fail)).children ∧
    fetchCount (setOpenRun (ONode.mk false false ["c"] (some .fail))).2 = 1 :=
  setOpen_fetch_failure_state (ONode.mk false false ["c"] (some .fail))
    (by decide) (by decide)

/-- C5: for every closed node with an async children-fetch capability whose
invocation succeeds with records `recs`, `setOpen` sets `loading = true`,
invokes the fetch, and on success sets `loading = false`, `opened = true` and
replaces the children with `recs` through
`setRawChildren(node, recs, 'last', reset = true)` — the full event trace in
source order. -/
theorem setOpen_fetch_success_state (n : ONode) (recs : List String)
    (h1 : n.cap = some (.ok recs)) (h2 : n.opened = false) :
    (setOpenRun n).1.opened = true ∧
    (setOpenRun n).1.loading = false ∧
    (setOpenRun n).1.children = recs ∧
    (setOpenRun n).2 = [.evSetLoading true, .fetchInvoke, .evSetLoading false,
      .evSetOpened true, .setRawChildrenCall .last true,
      .enhanceCall false, .enhanceCall false] := by
  obtain ⟨op, lo, ch, cp⟩ := n
  subst h2
  subst h1
  simp [setOpenRun, setOpenPhase1, setOpenResume, insertChildren]

/-- Witness for `setOpen_fetch_success_state` at a concrete closed node with
one fetched record. -/
theorem setOpen_fetch_success_state_witness :
    (setOpenRun (ONode.mk false false [] (some (.ok ["r1"])))).1.opened = true ∧
    (setOpenRun (ONode.mk false false [] (some (.ok ["r1"])))).1.loading = false ∧
    (setOpenRun (ONode.mk false false [] (some (.ok ["r1"])))).1.children = ["r1"] ∧
    (setOpenRun (ONode.mk false false [] (some (.ok ["r1"])))).2 =
      [.evSetLoading true, .fetchInvoke, .evSetLoading false,
        .evSetOpened true, .setRawChildrenCall .last true,
        .enhanceCall false, .enhanceCall false] :=
  setOpen_fetch_success_state (ONode.mk false false [] (some (.ok ["r1"]))) ["r1"]
    (by decide) (by decide)

/-- C9: for every closed node with a successful async children-fetch
capability, a full open/close/open cycle via `setOpen` behaves as: the first
open invokes the fetch once and installs the fetched children; the close
toggles `opened` off without invoking the fetch and leaves the children in
place; the re-open invokes the fetch again and re-installs the fetched
records through `setRawChildren(..., 'last', reset = true)` — lazily fetched
children are not cached across a close/open cycle. -/
theorem setOpen_close_open_refetches (n : ONode) (recs : List String)
    (h1 : n.cap = some (.ok recs)) (h2 : n.opened = false) :
    (fetchCount (setOpenRun n).2 = 1 ∧
      (setOpenRun n).1.opened = true ∧
      (setOpenRun n).1.children = recs) ∧
    (fetchCount (setOpenRun (setOpenRun n).1).2 = 0 ∧
      (setOpenRun (setOpenRun n).1).1.opened = false ∧
      (setOpenRun (setOpenRun n).1).1.children = recs) ∧
    (fetchCount (setOpenRun (setOpenRun (setOpenRun n).1).1).2 = 1 ∧
      (setOpenRun (setOpenRun (setOpenRun n).1).1).1.opened = true ∧
      (setOpenRun (setOpenRun (setOpenRun n).1).1).1.children = recs ∧
      Ev.setRawChildrenCall .last true ∈
        (setOpenRun (setOpenRun (setOpenRun n).1).1).2) := by
  obtain ⟨op, lo, ch, cp⟩ := n
  subst h2
  subst h1
  simp [setOpenRun, setOpenPhase1, setOpenResume, insertChildren, fetchCount]

/-- Witness for `setOpen_close_open_refetches` at a concrete closed node with
one fetched record. -/
theorem setOpen_close_open_refetches_witness :
    (fetchCount (setOpenRun (ONode.mk false false [] (some (.ok ["r1"])))).2 = 1 ∧
      (setOpenRun (ONode.mk false false [] (some (.ok ["r1"])))).1.opened = true ∧
      (setOpenRun (ONode.mk false false [] (some (.ok ["r1"])))).1.children = ["r1"]) ∧
    (fetchCount (setOpenRun (setOpenRun (ONode.mk false false [] (some (.ok ["r1"])))).1).2 = 0 ∧
      (setOpenRun (setOpenRun (ONode.mk false false [] (some (.ok ["r1"])))).1).1.opened = false ∧
      (setOpenRun (setOpenRun (ONode.mk false false [] (some (.ok ["r1"])))).1).1.children = ["r1"]) ∧
    (fetchCount (setOpenRun (setOpenRun (setOpenRun (ONode.mk false false [] (some (.ok ["r1"])))).1).1).2 = 1 ∧
      (setOpenRun (setOpenRun (setOpenRun (ONode.mk false false [] (some (.ok ["r1"])))).1).1).1.opened = true ∧
      (setOpenRun (setOpenRun (setOpenRun (ONode.mk false false [] (some (.ok ["r1"])))).1).1).1.children = ["r1"] ∧
      Ev.setRawChildrenCall .last true ∈
        (setOpenRun (setOpenRun (setOpenRun (ONode.mk false false [] (some (.ok ["r1"])))).1).1).2) :=
  setOpen_close_open_refetches (ONode.mk false false [] (some (.ok ["r1"]))) ["r1"]
    (by decide) (by decide)

theorem foldl_setOpenById_runSegments (segs : List String) (st : OStore)
    (acc : List Ev) :
    segs.foldl
        (fun a seg =>
          let r := setOpenById a.1 seg
          (r.1, a.2 ++ r.2)) (st, acc)
      = ((runSegments st segs).1,
          acc ++ ((runSegments st segs).2.map Prod.snd).flatten) := by
  induction segs generalizing st acc with
  | nil => simp [runSegments]
  | cons seg rest ih =>
    simp only [List.foldl_cons, runSegments]
    rw [ih]
    simp

theorem runSegments_ids (st : OStore) (segs : List String) :
    (runSegments st segs).2.map Prod.fst = segs := by
  induction segs generalizing st with
  | nil => rfl
  | cons seg rest ih => simp [runSegments, ih]

/-- C6: `setOpenByPath` splits the path on `/` into segment ids and runs
`setOpen` on each segment strictly in order — the resulting state and event
trace coincide with the fully sequential per-segment execution
(`runSegments`), in which each segment's `setOpen` runs to completion
(including any awaited fetch) on the state left by the previous segment, and
the trace is the in-order concatenation of the per-segment blocks with no
interleaving; the processed segment list is exactly `path.splitOn "/"`. -/
theorem setOpenByPath_sequential (st : OStore) (path : String) :
    (setOpenByPathModel st path).1 = (runSegments st (path.splitOn "/")).1 ∧
    (setOpenByPathModel st path).2
      = ((runSegments st (path.splitOn "/")).2.map Prod.snd).flatten ∧
    (runSegments st (path.splitOn "/")).2.map Prod.fst = path.splitOn "/" := by
  refine ⟨?_, ?_, runSegments_ids st _⟩ <;>
    simp [setOpenByPathModel, foldl_setOpenById_runSegments]

theorem mem_collectLevels_succ (store : List TNode) (fuel : Nat)
    (frontier : List String) (i : String) (h : i ∈ frontier) :
    i ∈ collectLevels store (fuel + 1) frontier := by
  simp only [collectLevels, List.mem_append]
  exact Or.inl h

theorem mem_rebuildIndexIds_of_root (store : List TNode) (n : TNode)
    (hmem : n ∈ store) (hroot : n.root = true) :
    n.id ∈ rebuildIndexIds store := by
  unfold rebuildIndexIds
  exact mem_collectLevels_succ _ _ _ _
    (List.mem_map_of_mem _ (List.mem_filter.mpr ⟨hmem, by simp [hroot]⟩))

theorem map_id_of_rootMapped (sibs : List TNode) :
    ((sibs.map (fun s =>
        { s with parentId := none, root := true, leaf := false })).map
      (fun s => s.id))
      = sibs.map (fun s => s.id) := by
  induction sibs with
  | nil => rfl
  | cons s rest ih => simp [ih]

/-- C7: `setSiblings` on a root target — the inserted siblings are stored
with `parent` cleared, `isRoot = true` and `isLeaf = false`, their ids are
spliced into the flattened root-level view immediately before or after the
target according to the position argument, and afterwards the view is
re-derived with `enhanceNodes(rebuildIndex = true)`, so the identity index
contains every inserted id. -/
theorem setSiblings_root_insertion (st : MState) (tid : String) (t : TNode)
    (sibs : List TNode) (pos : SibPos) (k : Nat)
    (h1 : getNodeById st.nodes tid = some t)
    (h2 : t.root = true) (h3 : t.parentId = none)
    (h4 : st.enhancedData.findIdx? (fun c => c == t.id) = some k) :
    (setSiblingsOpM st (.byId tid) sibs pos).enhancedData
      = spliceAt st.enhancedData (if pos = .before then k else k + 1)
          (sibs.map (fun s => s.id)) ∧
    (∀ s ∈ sibs, ∃ n, n ∈ (setSiblingsOpM st (.byId tid) sibs pos).nodes ∧
        n.id = s.id ∧ n.parentId = none ∧ n.root = true ∧ n.leaf = false) ∧
    (setSiblingsOpM st (.byId tid) sibs pos).enhanceLog
      = st.enhanceLog ++ [true] ∧
    (∀ s ∈ sibs, s.id ∈ (setSiblingsOpM st (.byId tid) sibs pos).idIndex) := by
  have hmain : setSiblingsOpM st (.byId tid) sibs pos
      = enhanceNodesM
          { st with
            nodes := upsertNodes st.nodes (sibs.map (fun s =>
              { s with parentId := none, root := true, leaf := false }))
            enhancedData := spliceAt st.enhancedData
              (if pos = .before then k else k + 1)
              ((sibs.map (fun s =>
                { s with parentId := none, root := true, leaf := false })).map
                (fun s => s.id)) } true := by
    simp [setSiblingsOpM, resolveRef, h1, h3, h2, h4]
  refine ⟨?_, ?_, ?_, ?_⟩
  · rw [hmain]
    simp only [enhanceNodesM, map_id_of_rootMapped]
  · intro s hs
    refine ⟨{ s with parentId := none, root := true, leaf := false }, ?_,
      rfl, rfl, rfl, rfl⟩
    rw [hmain]
    simp only [enhanceNodesM, upsertNodes, List.mem_append]
    exact Or.inr (List.mem_map_of_mem _ hs)
  · rw [hmain]
    simp [enhanceNodesM]
  · intro s hs
    rw [hmain]
    simp only [enhanceNodesM, if_true]
    have : ({ s with parentId := none, root := true, leaf := false } : TNode).id
        ∈ rebuildIndexIds (upsertNodes st.nodes (sibs.map (fun s =>
            { s with parentId := none, root := true, leaf := false }))) := by
      apply mem_rebuildIndexIds_of_root
      · simp only [upsertNodes, List.mem_append]
        exact Or.inr (List.mem_map_of_mem _ hs)
      · rfl
    simpa using this

/-- Witness for `setSiblings_root_insertion`: one sibling inserted after a
single root node. -/
theorem setSiblings_root_insertion_witness :
    getNodeById
        (MState.mk [TNode.mk "t" none true false [] none false false false]
          ["t"] ["t"] none none false []).nodes "t"
      = some (TNode.mk "t" none true false [] none false false false) ∧
    ((setSiblingsOpM
        (MState.mk [TNode.mk "t" none true false [] none false false false]
          ["t"] ["t"] none none false [])
        (.byId "t")
        [TNode.mk "s" (some "p") false true [] none false false false]
        SibPos.after).enhancedData
      = spliceAt
          (MState.mk [TNode.mk "t" none true false [] none false false false]
            ["t"] ["t"] none none false []).enhancedData
          (if SibPos.after = SibPos.before then 0 else 0 + 1)
          ([TNode.mk "s" (some "p") false true [] none false false false].map
            (fun s => s.id)) ∧
    (∀ s ∈ [TNode.mk "s" (some "p") false true [] none false false false],
      ∃ n, n ∈ (setSiblingsOpM
          (MState.mk [TNode.mk "t" none true false [] none false false false]
            ["t"] ["t"] none none false [])
          (.byId "t")
          [TNode.mk "s" (some "p") false true [] none false false false]
          SibPos.after).nodes ∧
        n.id = s.id ∧ n.parentId = none ∧ n.root = true ∧ n.leaf = false) ∧
    (setSiblingsOpM
        (MState.mk [TNode.mk "t" none true false [] none false false false]
          ["t"] ["t"] none none false [])
        (.byId "t")
        [TNode.mk "s" (some "p") false true [] none false false false]
        SibPos.after).enhanceLog
      = (MState.mk [TNode.mk "t" none true false [] none false false false]
          ["t"] ["t"] none none false []).enhanceLog ++ [true] ∧
    (∀ s ∈ [TNode.mk "s" (some "p") false true [] none false false false],
      s.id ∈ (setSiblingsOpM
          (MState.mk [TNode.mk "t" none true false [] none false false false]
            ["t"] ["t"] none none false [])
          (.byId "t")
          [TNode.mk "s" (some "p") false true [] none false false false]
          SibPos.after).idIndex)) :=
  ⟨by decide,
    setSiblings_root_insertion
      (MState.mk [TNode.mk "t" none true false [] none false false false]
        ["t"] ["t"] none none false [])
      "t" (TNode.mk "t" none true false [] none false false false)
      [TNode.mk "s" (some "p") false true [] none false false false]
      SibPos.after 0 (by decide) (by decide) (by decide) (by decide)⟩

theorem map_structural_updateDrag (i : String) (v : Option String)
    (ns : List TNode) :
    (updateFirst i (fun n => { n with dragContainer := v }) ns).map
        (fun n => (n.id, n.parentId, n.root, n.leaf, n.childIds))
      = ns.map (fun n => (n.id, n.parentId, n.root, n.leaf, n.childIds)) := by
  induction ns with
  | nil => rfl
  | cons n rest ih => by_cases h : n.id = i <;> simp [updateFirst, h, ih]

theorem structuralOf_setDragContainer (st : MState) (i : String)
    (v : Option String) :
    structuralOf (setDragContainerByIdM st i v) = structuralOf st := by
  unfold setDragContainerByIdM
  cases hg : getNodeById st.nodes i with
  | none => rfl
  | some n => simp [structuralOf, map_structural_updateDrag]

theorem dropNodeId_setDragContainer (st : MState) (i : String)
    (v : Option String) :
    (setDragContainerByIdM st i v).dropNodeId = st.dropNodeId := by
  unfold setDragContainerByIdM
  cases getNodeById st.nodes i <;> rfl

/-- C8: a drop whose recorded drop-target id equals the source node's id, or
for which no drop target is recorded, leaves the tree structure untouched:
`handleDrop` returns normally (no error), the source node is not detached,
and no reparenting or sibling insertion happens — every node keeps its
identity, parent link, root/leaf flags and children, and the flattened view
is unchanged. -/
theorem handleDrop_self_or_no_target_noop (st : MState) (sid : String)
    (h : st.dropNodeId = none ∨ st.dropNodeId = some sid) :
    ∃ st', handleDropOpM st sid = Except.ok st'
      ∧ structuralOf st' = structuralOf st := by
  rcases h with h | h
  · refine ⟨{ st with isDragging := false }, ?_, rfl⟩
    simp [handleDropOpM, h]
  · refine ⟨setDragContainerByIdM { st with isDragging := false } sid none,
      ?_, ?_⟩
    · simp [handleDropOpM, h, dropNodeId_setDragContainer]
    · rw [structuralOf_setDragContainer]
      rfl

/-- Witness for `handleDrop_self_or_no_target_noop`: a drop back onto the
source node itself. -/
theorem handleDrop_self_or_no_target_noop_witness :
    ((MState.mk [TNode.mk "s" none true false [] (some "before") false false
        false] ["s"] ["s"] (some "s") (some "before") true []).dropNodeId
        = none ∨
      (MState.mk [TNode.mk "s" none true false [] (some "before") false false
        false] ["s"] ["s"] (some "s") (some "before") true []).dropNodeId
        = some "s") ∧
    (∃ st', handleDropOpM
        (MState.mk [TNode.mk "s" none true false [] (some "before") false false
          false] ["s"] ["s"] (some "s") (some "before") true []) "s"
        = Except.ok st'
      ∧ structuralOf st'
        = structuralOf (MState.mk [TNode.mk "s" none true false []
            (some "before") false false false] ["s"] ["s"] (some "s")
            (some "before") true [])) :=
  ⟨Or.inr (by decide),
    handleDrop_self_or_no_target_noop
      (MState.mk [TNode.mk "s" none true false [] (some "before") false false
        false] ["s"] ["s"] (some "s") (some "before") true []) "s"
      (Or.inr (by decide))⟩

/-- C10: a raw dataset that is a single record and the one-element array
holding that same record are normalized to the same array
(`Array.isArray(data) ? data : [data]`), so the hash-keyed data
synchronization step — and with it everything the tree rebuild derives from
`localData` — produces identical state for the two inputs, for every hash
function and every current `localData`. -/
theorem single_record_normalization (α : Type) (hashFn : List α → Nat) (r : α)
    (localData : List α) :
    dataSyncStep hashFn (.single r) localData
      = dataSyncStep hashFn (.arr [r]) localData ∧
    formatData (RawInput.single r) = formatData (RawInput.arr [r]) :=
  ⟨rfl, rfl⟩

end HyperTree
